import Mathlib

set_option maxRecDepth 100000

/-!
# A shallow embedding of `src/core/lib/metrics.js` (minigun)

This file models the windowed metrics-aggregation engine of the repository:
the `Metrics` class (its mutable fields become an explicit state record and
its methods become state-passing functions), and the free functions
`defaultAggregator` and `round`.  JavaScript objects used as string-keyed
dictionaries (`this._events`, `this._eventTypes`, `this._timers`, …) are
modelled as insertion-ordered association lists; JavaScript `undefined` is
modelled as `Option.none`, and the handful of JS coercions the code relies
on (`||` on numbers, truthiness, comparisons against `undefined`) are given
explicit definitions below.

Timestamps are `Date.now()` values, modelled as `Int` (integral
milliseconds); metric values are JS numbers, modelled as `ℚ`.
-/

namespace Minigun

/-! ## Association-list model of JS objects used as dictionaries -/

/-- `obj[k]` on a JS object modelled as an association list:
`none` is JS `undefined` (key absent). -/
def alGet {α : Type} : List (String × α) → String → Option α
  | [], _ => none
  | (k2, v) :: rest, k => if k2 = k then some v else alGet rest k

/-- `obj[k] = v` on a JS object: overwrite the existing key in place, or
append a new key (JS objects preserve key-insertion order). -/
def alSet {α : Type} : List (String × α) → String → α → List (String × α)
  | [], k, v => [(k, v)]
  | (k2, v2) :: rest, k, v =>
      if k2 = k then (k2, v) :: rest else (k2, v2) :: alSet rest k v

/-- `Object.keys(obj)`. -/
def alKeys {α : Type} (l : List (String × α)) : List String :=
  l.map Prod.fst

/-! ## JS value coercions used by metrics.js -/

/-- JS `a || b` where `a` is a number-or-`undefined`: both `undefined` and
`0` are falsy and select `b`. -/
def jsOrNum (a : Option Int) (b : Option Int) : Option Int :=
  match a with
  | some n => if n = 0 then b else some n
  | none => b

/-- JS `a || d` where `a` is a number-or-`undefined` and `d` a number. -/
def jsOrNumD (a : Option Int) (d : Int) : Int :=
  match a with
  | some n => if n = 0 then d else n
  | none => d

/-- JS `a || d` where `a` is a string-or-`undefined`: `undefined` and the
empty string are falsy. -/
def jsOrString (a : Option String) (d : String) : String :=
  match a with
  | some s => if s = "" then d else s
  | none => d

/-- JS truthiness of a number-or-`undefined` (`undefined`, `0` falsy). -/
def jsTruthy (a : Option Int) : Bool :=
  match a with
  | none => false
  | some n => n != 0

/-- JS `a >= b` where `a` may be `undefined` (`undefined >= b` is `false`:
the comparison goes through `NaN`). -/
def jsGeB (a : Option Int) (b : Int) : Bool :=
  match a with
  | none => false
  | some n => b ≤ n

/-- JS `a <= b` where `a` may be `undefined` (`undefined <= b` is `false`). -/
def jsLeB (a : Option Int) (b : Int) : Bool :=
  match a with
  | none => false
  | some n => n ≤ b

/-- `Math.min` over JS numbers where `none` stands for `Infinity`
(the fold's starting value in `getEarliestEventTimestamp`). -/
def minOptInt (a b : Option Int) : Option Int :=
  match a, b with
  | none, b => b
  | some x, none => some x
  | some x, some y => some (min x y)

/-! ## Data model -/

/-- An entry of `this._events[name]`: `{ts: Date.now(), v: value, tags: tags}`
(`event()`, metrics.js lines 94-98). -/
structure MEvent where
  ts : Int
  v : ℚ
  tags : List (String × String)
deriving DecidableEq, Repr

/-- The mark objects built by `markStart` / `markEnd`:
`{sat: Date.now(), id}` resp. `{eat: Date.now(), id}`; the field that a
given mark does not carry is JS `undefined` (`none`). -/
structure TimerMark where
  sat : Option Int := none
  eat : Option Int := none
  id : String
deriving DecidableEq, Repr

/-- An entry of `this._timers[name]`.  `markStart` and `markEnd` push
`[{sat: …, id}]` / `[{eat: …, id}]` — a singleton JS *array* wrapping the
mark object, not the mark itself (metrics.js lines 219 and 227). -/
structure TimerEntry where
  elems : List TimerMark
deriving DecidableEq, Repr

/-- `e.ts` where `e` is a stored timer entry: a JS array has no own
property `ts`, so the access yields `undefined`. -/
def TimerEntry.ts (_ : TimerEntry) : Option Int := none

/-- `e.sat` on a stored timer entry (a JS array): `undefined`. -/
def TimerEntry.sat (_ : TimerEntry) : Option Int := none

/-- `e.eat` on a stored timer entry (a JS array): `undefined`. -/
def TimerEntry.eat (_ : TimerEntry) : Option Int := none

/-- A per-metric summary stored in a produced period.  The `type` string of
the JS object is the constructor; the histogram constructor carries the
multiset of window values fed to the external `hdr-histogram-js` library
(whose five-field numeric summary is a function of those recorded values
and is not modelled numerically — no claim depends on it). -/
inductive MetricSummary : Type
  | counter (value : ℚ)
  | meter (value : ℚ) (unit : String)
  | histogram (values : List ℚ)
  | watermark (value : Int)
deriving DecidableEq, Repr

/-- A produced aggregation period.  `uuid()` produces an opaque globally
unique identifier; it is modelled as the period's append index, which is
unique within the store.  `topProps` holds properties assigned directly on
the period object (`period[name] = …`), as the watermark branch of
`defaultAggregator` does (line 374) — distinct from `period.metrics`.
(The model is faithful for metric names distinct from the period's own
property names `id`/`startsAt`/`endsAt`/`metrics`.) -/
structure Period where
  id : Nat
  startsAt : Int
  endsAt : Int
  metrics : List (String × MetricSummary)
  topProps : List (String × MetricSummary)
deriving DecidableEq, Repr

/-- The state of a `Metrics` instance (the class's mutable fields).
`nextPeriodBeginning` is `this._nextPeriodBeginning`, unset (`undefined`)
until the first window closes. -/
structure Metrics where
  aggregationIntervalMs : Int
  aggregationLagMs : Int
  events : List (String × List MEvent)
  eventTypes : List (String × Option String)
  eventNames : List (String × String)
  timers : List (String × List TimerEntry)
  periods : List Period
  nextPeriodBeginning : Option Int
deriving DecidableEq, Repr

/-- `new Metrics(opts)`: intervals are given in seconds with JS `||`
defaults of 10, multiplied by 1000 (metrics.js lines 26-27).  Modelled for
integral configurations (all uses in the repository are integral). -/
def Metrics.init (aggregationInterval aggregationLag : Option Int) : Metrics where
  aggregationIntervalMs := jsOrNumD aggregationInterval 10 * 1000
  aggregationLagMs := jsOrNumD aggregationLag 10 * 1000
  events := []
  eventTypes := []
  eventNames := []
  timers := []
  periods := []
  nextPeriodBeginning := none

/-- A metric definition as passed to `describeMetric` (`{name, type,
displayName?}`); `type` may be `undefined`. -/
structure MetricDef where
  name : String
  type : Option String
  displayName : Option String := none
deriving DecidableEq, Repr

/-- One iteration of the `forEach` of `describeMetric` (metrics.js lines
71-80): a `watermark` declaration resets the timer sequence, any other
declaration resets the event sequence; the type and display name are
recorded unconditionally. -/
def describeOne (st : Metrics) (o : MetricDef) : Metrics :=
  let st1 :=
    if o.type = some "watermark" then
      { st with timers := alSet st.timers o.name [] }
    else
      { st with events := alSet st.events o.name [] }
  { st1 with
      eventTypes := alSet st1.eventTypes o.name o.type
      eventNames := alSet st1.eventNames o.name (jsOrString o.displayName o.name) }

/-- `describeMetric` after normalisation to a list of definitions. -/
def Metrics.describeMetricList (s : Metrics) (defs : List MetricDef) : Metrics :=
  defs.foldl describeOne s

/-- `describeMetric(name, type)` with a single name (the non-object call
shape; metrics.js lines 63-69 wrap it into a one-element list). -/
def Metrics.describeMetric (s : Metrics) (name : String) (type : Option String) : Metrics :=
  s.describeMetricList [{ name := name, type := type }]

/-- `event(name, value = 1, tags = {})` (metrics.js lines 89-100): the
sequence is auto-initialised when the name was never seen, then the event
is appended with `ts = Date.now()` (passed here explicitly as `now`). -/
def Metrics.event (s : Metrics) (name : String) (value : ℚ)
    (tags : List (String × String)) (now : Int) : Metrics :=
  let seq := (alGet s.events name).getD []
  { s with events := alSet s.events name (seq ++ [{ ts := now, v := value, tags := tags }]) }

/-- `meter(name)` delegates to `event(name)` with the default value 1. -/
def Metrics.meter (s : Metrics) (name : String) (now : Int) : Metrics :=
  s.event name 1 [] now

/-- `histogram(name, value)` delegates to `event(name, value)`. -/
def Metrics.histogram (s : Metrics) (name : String) (value : ℚ) (now : Int) : Metrics :=
  s.event name value [] now

/-- `counter(name, value = 1)` delegates to `event(name, value)`. -/
def Metrics.counter (s : Metrics) (name : String) (value : ℚ) (now : Int) : Metrics :=
  s.event name value [] now

/-- `markStart(name, id)` (metrics.js lines 215-220): auto-initialises the
timer sequence and pushes the singleton array `[{sat: Date.now(), id}]`. -/
def Metrics.markStart (s : Metrics) (name : String) (id : String) (now : Int) : Metrics :=
  let seq := (alGet s.timers name).getD []
  { s with
      timers := alSet s.timers name
        (seq ++ [{ elems := [{ sat := some now, id := id }] }]) }

/-- `markEnd(name, id)` (metrics.js lines 222-228): pushes
`[{eat: Date.now(), id}]`. -/
def Metrics.markEnd (s : Metrics) (name : String) (id : String) (now : Int) : Metrics :=
  let seq := (alGet s.timers name).getD []
  { s with
      timers := alSet s.timers name
        (seq ++ [{ elems := [{ eat := some now, id := id }] }]) }

/-- `listEvents()`: `Object.keys(this._events)`. -/
def Metrics.listEvents (s : Metrics) : List String :=
  alKeys s.events

/-- `getEventType(name)`: `this._eventTypes[name]` — `undefined` both when
the key is absent and when the stored type was `undefined`. -/
def Metrics.getEventType (s : Metrics) (name : String) : Option String :=
  (alGet s.eventTypes name).join

/-- `getEventData(name, gte, lte)` (metrics.js lines 115-121): linear scan
keeping events with `gte ≤ ts ≤ lte`.  (Callers only pass names present in
`_events`; an absent name is modelled as the empty sequence.) -/
def Metrics.getEventData (s : Metrics) (name : String) (gte lte : Int) : List MEvent :=
  ((alGet s.events name).getD []).filter fun e => decide (e.ts ≥ gte) && decide (e.ts ≤ lte)

/-- `getTimerData(name, lte, gte)` (metrics.js lines 123-127) — note the
declared parameter order (`lte` first), while the body filters
`e.ts >= gte && e.ts <= lte`; the aggregator calls it as
`getTimerData(name, earliest, latest)`. -/
def Metrics.getTimerData (s : Metrics) (name : String) (lte gte : Int) : List TimerEntry :=
  ((alGet s.timers name).getD []).filter fun e => jsGeB e.ts gte && jsLeB e.ts lte

/-- `deleteEventData(name, gte, lte)` (metrics.js lines 129-133): keeps
only events with `ts > lte` (`gte` is unused by the body). -/
def Metrics.deleteEventData (s : Metrics) (name : String) (_gte lte : Int) : Metrics :=
  { s with
      events := alSet s.events name
        (((alGet s.events name).getD []).filter fun e => decide (e.ts > lte)) }

/-- The `reduce` of `deleteTimerData` counting in-window `sat` marks. -/
def countSats (seq : List TimerEntry) (gte lte : Int) : Nat :=
  (seq.filter fun e => jsTruthy e.sat && jsLeB e.sat lte && jsGeB e.sat gte).length

/-- The `reduce` of `deleteTimerData` counting in-window `eat` marks. -/
def countEats (seq : List TimerEntry) (gte lte : Int) : Nat :=
  (seq.filter fun e => jsTruthy e.eat && jsLeB e.eat lte && jsGeB e.eat gte).length

/-- `deleteTimerData(name, gte, lte)` (metrics.js lines 135-161): the
filter *keeps* entries whose `sat`/`eat` lies inside `[gte, lte]` and drops
every other entry (the callback returns `undefined`, which is falsy, for
them); when more starts than ends were counted the kept list is copied
(`[].concat(...)`, contents unchanged). -/
def Metrics.deleteTimerData (s : Metrics) (name : String) (gte lte : Int) : Metrics :=
  let seq := (alGet s.timers name).getD []
  let sats := countSats seq gte lte
  let eats := countEats seq gte lte
  let kept := seq.filter fun e =>
    (jsTruthy e.eat && jsLeB e.eat lte && jsGeB e.eat gte) ||
    (jsTruthy e.sat && jsLeB e.sat lte && jsGeB e.sat gte)
  let kept2 := if sats > eats then ([] : List TimerEntry) ++ kept else kept
  { s with timers := alSet s.timers name kept2 }

/-- `getEarliestEventTimestamp()` (metrics.js lines 186-201): the first
pending timestamp of each event sequence (`Infinity`, i.e. `none`, for an
empty sequence), folded with `Math.min` starting from `Infinity`. -/
def Metrics.getEarliestEventTimestamp (s : Metrics) : Option Int :=
  let ts := s.events.map fun kv =>
    match kv.2 with
    | [] => (none : Option Int)
    | e :: _ => some e.ts
  ts.foldl minOptInt none

/-- The JS value returned by `getLastPeriod` (metrics.js lines 252-254):
the method invokes `cb(null, {})` — an empty object literal — regardless of
the period store's contents. -/
inductive LastPeriodResult : Type
  | emptyObject
  | period (p : Period)
deriving DecidableEq, Repr

/-- `getLastPeriod(cb)`: `return cb(null, {})`. -/
def Metrics.getLastPeriod (_ : Metrics) : LastPeriodResult :=
  LastPeriodResult.emptyObject

/-- `listPeriods()`: the stored periods' identifiers. -/
def Metrics.listPeriods (s : Metrics) : List Nat :=
  s.periods.map Period.id

/-- `getPeriod(id)`: `_.find(this._periods, p => p.id === id)`. -/
def Metrics.getPeriod (s : Metrics) (id : Nat) : Option Period :=
  s.periods.find? fun p => p.id = id

/-- JS `Math.round`: round half toward positive infinity. -/
def mathRound (q : ℚ) : Int :=
  Rat.floor (q + 1 / 2)

/-- `round(number, decimals)` (metrics.js lines 387-390):
`Math.round(number * 10^decimals) / 10^decimals`. -/
def round (number : ℚ) (decimals : Nat) : ℚ :=
  let m : ℚ := (10 : ℚ) ^ decimals
  (mathRound (number * m) : ℚ) / m

/-- The per-metric result of one iteration of the event loop of
`defaultAggregator` (metrics.js lines 312-350): the `if/else if` chain on
the declared type; any other type (including `undefined`) stores nothing. -/
def aggregateEventMetric (eventType : Option String) (eventStream : List MEvent)
    (aggregationIntervalMs : Int) : Option MetricSummary :=
  if eventType = some "counter" then
    some (.counter (eventStream.map MEvent.v).sum)
  else if eventType = some "meter" then
    some (.meter (round ((eventStream.length : ℚ) / ((aggregationIntervalMs : ℚ) / 1000)) 2)
      "second")
  else if eventType = some "histogram" then
    some (.histogram (eventStream.map MEvent.v))
  else
    none

/-- Store a computed summary under `period.metrics[name]`, or store
nothing when no branch of the `if/else if` chain matched. -/
def aggUpdatePeriod (p : Period) (name : String) : Option MetricSummary → Period
  | some summary => { p with metrics := alSet p.metrics name summary }
  | none => p

/-- One iteration of `this.listEvents().forEach(name => …)` in
`defaultAggregator` (metrics.js lines 308-353): compute the summary from
the window's events, store it under `period.metrics[name]`, then
`deleteEventData(name, earliest, latest)`. -/
def aggStep (earliest latest : Int) (acc : Metrics × Period) (name : String) :
    Metrics × Period :=
  (acc.1.deleteEventData name earliest latest,
   aggUpdatePeriod acc.2 name
     (aggregateEventMetric (acc.1.getEventType name)
       (acc.1.getEventData name earliest latest) acc.1.aggregationIntervalMs))

/-- The watermark scan of `defaultAggregator` (metrics.js lines 359-372):
running counter `c`, incremented on a truthy `e.sat`, decremented on a
truthy `e.eat`, tracking the high-water mark. -/
def watermarkScan (eventStream : List TimerEntry) : Int :=
  (eventStream.foldl
    (fun (hc : Int × Int) e =>
      if jsTruthy e.sat then
        let c := hc.2 + 1
        (if hc.1 < c then c else hc.1, c)
      else if jsTruthy e.eat then (hc.1, hc.2 - 1)
      else hc)
    (0, 0)).1

/-- One iteration of `Object.keys(this._timers).forEach(name => …)` in
`defaultAggregator` (metrics.js lines 358-380): scan the window's timer
entries, assign `period[name] = {type: 'watermark', value: high}` (a
property directly on the period object), then
`deleteTimerData(name, earliest, latest)`. -/
def aggTimerStep (earliest latest : Int) (acc : Metrics × Period) (name : String) :
    Metrics × Period :=
  (acc.1.deleteTimerData name earliest latest,
   { acc.2 with
       topProps := alSet acc.2.topProps name
         (.watermark (watermarkScan (acc.1.getTimerData name earliest latest))) })

/-- The two aggregation loops of the window-closing pass of
`defaultAggregator` (metrics.js lines 296-380), producing the final state
and the assembled period: cursor advanced to `latest + 1`, the period
seeded with `{id, startsAt: earliest, endsAt: latest, metrics: {}}`, then
the events loop over `this.listEvents()` and the timers loop over
`Object.keys(this._timers)`. -/
def closeWindowAcc (s : Metrics) (earliest : Int) : Metrics × Period :=
  let latest := earliest + s.aggregationIntervalMs
  let s1 := { s with nextPeriodBeginning := some (latest + 1) }
  let period0 : Period :=
    { id := s.periods.length, startsAt := earliest, endsAt := latest
      metrics := [], topProps := [] }
  let acc1 := s1.listEvents.foldl (aggStep earliest latest) (s1, period0)
  (alKeys acc1.1.timers).foldl (aggTimerStep earliest latest) acc1

/-- The window-closing body of `defaultAggregator` (metrics.js lines
296-384): run the two loops, then append the period to the store.  (The
`events.emit('aggregate', period)` notification carries the same period
synchronously and adds no state.) -/
def Metrics.closeWindow (s : Metrics) (earliest : Int) : Metrics :=
  { (closeWindowAcc s earliest).1 with
      periods := (closeWindowAcc s earliest).1.periods ++ [(closeWindowAcc s earliest).2] }

/-- `defaultAggregator` (metrics.js lines 266-385), with `Date.now()`
passed explicitly as `now`.  `this._nextPeriodBeginning || this.getEarliestEventTimestamp()`
resolves the window anchor; `Infinity` (no pending events) or a window not
yet past its lag boundary (`withLag > Date.now()`) are no-ops. -/
def Metrics.defaultAggregator (s : Metrics) (now : Int) : Metrics :=
  match jsOrNum s.nextPeriodBeginning s.getEarliestEventTimestamp with
  | none => s
  | some earliest =>
    let latest := earliest + s.aggregationIntervalMs
    let withLag := latest + s.aggregationLagMs
    if withLag > now then s
    else s.closeWindow earliest

/-! ## Operation traces

A trace of the externally callable operations, each carrying the
`Date.now()` value at which it runs.  `run` folds a trace over a state. -/

inductive Op : Type
  | describe (name : String) (type : Option String)
  | describeList (defs : List MetricDef)
  | record (name : String) (value : ℚ) (ts : Int)
  | markStart (name : String) (id : String) (ts : Int)
  | markEnd (name : String) (id : String) (ts : Int)
  | tick (now : Int)
deriving DecidableEq, Repr

def applyOp (s : Metrics) : Op → Metrics
  | .describe n t => s.describeMetric n t
  | .describeList ds => s.describeMetricList ds
  | .record n v ts => s.event n v [] ts
  | .markStart n i ts => s.markStart n i ts
  | .markEnd n i ts => s.markEnd n i ts
  | .tick now => s.defaultAggregator now

def run (s : Metrics) (ops : List Op) : Metrics :=
  ops.foldl applyOp s

/-- The timestamps an operation feeds into the store are `Date.now()`
values, hence non-negative. -/
def Op.tsOk : Op → Prop
  | .record _ _ ts => 0 ≤ ts
  | .markStart _ _ ts => 0 ≤ ts
  | .markEnd _ _ ts => 0 ≤ ts
  | _ => True

instance : DecidablePred Op.tsOk := by
  intro op
  cases op <;> simp [Op.tsOk] <;> infer_instance

/-! ## Lemmas about the association-list model -/

theorem alGet_alSet_self {α : Type} (l : List (String × α)) (k : String) (v : α) :
    alGet (alSet l k v) k = some v := by
  induction l with
  | nil => simp [alSet, alGet]
  | cons kv rest ih =>
      obtain ⟨k2, v2⟩ := kv
      by_cases h : k2 = k
      · simp [alSet, alGet, h]
      · simp [alSet, alGet, h, ih]

theorem alGet_alSet_ne {α : Type} (l : List (String × α)) (k k' : String) (v : α)
    (h : k ≠ k') : alGet (alSet l k v) k' = alGet l k' := by
  induction l with
  | nil => simp [alSet, alGet, h]
  | cons kv rest ih =>
      obtain ⟨k2, v2⟩ := kv
      by_cases h2 : k2 = k
      · subst h2
        simp [alSet, alGet, h]
      · simp [alSet, alGet, h2, ih]

theorem mem_alSet {α : Type} {l : List (String × α)} {k : String} {v : α} {x : String × α}
    (hx : x ∈ alSet l k v) : x ∈ l ∨ x = (k, v) := by
  induction l with
  | nil =>
      simp [alSet] at hx
      exact Or.inr hx
  | cons kv rest ih =>
      obtain ⟨k2, v2⟩ := kv
      by_cases h : k2 = k
      · subst h
        simp [alSet] at hx
        rcases hx with h1 | h1
        · exact Or.inr (by simp [h1])
        · exact Or.inl (by simp [h1])
      · simp [alSet, h] at hx
        rcases hx with h1 | h1
        · exact Or.inl (by simp [h1])
        · rcases ih h1 with h2 | h2
          · exact Or.inl (by simp [h2])
          · exact Or.inr h2

theorem alGet_mem {α : Type} {l : List (String × α)} {k : String} {v : α}
    (h : alGet l k = some v) : (k, v) ∈ l := by
  induction l with
  | nil => simp [alGet] at h
  | cons kv rest ih =>
      obtain ⟨k2, v2⟩ := kv
      by_cases h2 : k2 = k
      · subst h2
        simp [alGet] at h
        simp [h]
      · simp [alGet, h2] at h
        exact List.mem_cons_of_mem _ (ih h)

theorem alKeys_cons {α : Type} (k2 : String) (v2 : α) (rest : List (String × α)) :
    alKeys ((k2, v2) :: rest) = k2 :: alKeys rest := rfl

theorem alGet_eq_none_of_not_mem_keys {α : Type} {l : List (String × α)} {k : String}
    (h : k ∉ alKeys l) : alGet l k = none := by
  induction l with
  | nil => rfl
  | cons kv rest ih =>
      obtain ⟨k2, v2⟩ := kv
      rw [alKeys_cons] at h
      have h1 : ¬ k2 = k := by
        intro hk
        subst hk
        exact h (List.mem_cons_self _ _)
      have h2 : k ∉ alKeys rest := fun hk => h (List.mem_cons_of_mem _ hk)
      simp [alGet, h1, ih h2]

theorem alGet_isSome_of_mem_keys {α : Type} {l : List (String × α)} {k : String}
    (h : k ∈ alKeys l) : ∃ v, alGet l k = some v := by
  induction l with
  | nil => simp [alKeys] at h
  | cons kv rest ih =>
      obtain ⟨k2, v2⟩ := kv
      by_cases h2 : k2 = k
      · exact ⟨v2, by simp [alGet, h2]⟩
      · rw [alKeys_cons] at h
        rcases List.mem_cons.mp h with h3 | h3
        · exact absurd h3.symm h2
        · obtain ⟨v, hv⟩ := ih h3
          exact ⟨v, by simp [alGet, h2, hv]⟩

theorem alKeys_alSet {α : Type} (l : List (String × α)) (k : String) (v : α) :
    alKeys (alSet l k v) = if k ∈ alKeys l then alKeys l else alKeys l ++ [k] := by
  induction l with
  | nil => simp [alSet, alKeys]
  | cons kv rest ih =>
      obtain ⟨k2, v2⟩ := kv
      by_cases h : k2 = k
      · subst h
        simp [alSet, alKeys_cons]
      · have hset : alSet ((k2, v2) :: rest) k v = (k2, v2) :: alSet rest k v := by
          simp [alSet, h]
        have hne : ¬ k = k2 := fun hk => h hk.symm
        rw [hset, alKeys_cons, alKeys_cons, ih]
        by_cases hm : k ∈ alKeys rest
        · rw [if_pos hm, if_pos (List.mem_cons_of_mem _ hm)]
        · rw [if_neg hm, if_neg (by
            intro hc
            rcases List.mem_cons.mp hc with h1 | h1
            · exact hne h1
            · exact hm h1)]
          simp

theorem alKeys_alSet_nodup {α : Type} {l : List (String × α)} (hn : (alKeys l).Nodup)
    (k : String) (v : α) : (alKeys (alSet l k v)).Nodup := by
  rw [alKeys_alSet]
  by_cases h : k ∈ alKeys l
  · simpa [h] using hn
  · simp only [h, if_false]
    refine List.Nodup.append hn (by simp) ?_
    intro x hx hy
    simp at hy
    subst hy
    exact h hx

/-- A fold preserves any invariant its step preserves. -/
theorem foldl_inv {σ α : Type} (P : σ → Prop) (f : σ → α → σ)
    (l : List α) (h : ∀ st a, a ∈ l → P st → P (f st a)) :
    ∀ st, P st → P (l.foldl f st) := by
  induction l with
  | nil => intro st hst; exact hst
  | cons a rest ih =>
      intro st hst
      exact ih (fun st' b hb => h st' b (List.mem_cons_of_mem _ hb))
        _ (h st a (List.mem_cons_self _ _) hst)

/-! ## Lemmas about the aggregation loops -/

theorem aggUpdatePeriod_id (p : Period) (name : String) (o : Option MetricSummary) :
    (aggUpdatePeriod p name o).id = p.id := by
  cases o <;> rfl

theorem aggUpdatePeriod_startsAt (p : Period) (name : String) (o : Option MetricSummary) :
    (aggUpdatePeriod p name o).startsAt = p.startsAt := by
  cases o <;> rfl

theorem aggUpdatePeriod_endsAt (p : Period) (name : String) (o : Option MetricSummary) :
    (aggUpdatePeriod p name o).endsAt = p.endsAt := by
  cases o <;> rfl

theorem aggUpdatePeriod_topProps (p : Period) (name : String) (o : Option MetricSummary) :
    (aggUpdatePeriod p name o).topProps = p.topProps := by
  cases o <;> rfl

theorem aggUpdatePeriod_shape (p : Period) (name : String) (o : Option MetricSummary) :
    aggUpdatePeriod p name o = { p with metrics := (aggUpdatePeriod p name o).metrics } := by
  cases o <;> rfl

theorem aggUpdatePeriod_metrics_ne (p : Period) (name : String) (o : Option MetricSummary)
    (name' : String) (h : name ≠ name') :
    alGet (aggUpdatePeriod p name o).metrics name' = alGet p.metrics name' := by
  cases o with
  | none => rfl
  | some summary => simp [aggUpdatePeriod, alGet_alSet_ne _ _ _ _ h]

theorem aggUpdatePeriod_metrics_self (p : Period) (name : String) (o : Option MetricSummary) :
    alGet (aggUpdatePeriod p name o).metrics name =
      o.elim (alGet p.metrics name) some := by
  cases o with
  | none => rfl
  | some summary => simp [aggUpdatePeriod, alGet_alSet_self]

theorem getEventData_deleteEventData_ne (s : Metrics) (n name : String)
    (g l g2 l2 : Int) (h : n ≠ name) :
    (s.deleteEventData n g l).getEventData name g2 l2 = s.getEventData name g2 l2 := by
  unfold Metrics.deleteEventData Metrics.getEventData
  simp [alGet_alSet_ne _ _ _ _ h]

/-- The events loop only modifies the `events` field of the state. -/
theorem eventsLoop_fst_shape (earliest latest : Int) (names : List String) :
    ∀ (acc : Metrics × Period),
      (names.foldl (aggStep earliest latest) acc).1 =
        { acc.1 with events := (names.foldl (aggStep earliest latest) acc).1.events } := by
  induction names with
  | nil => intro acc; rfl
  | cons n rest ih =>
      intro acc
      rw [List.foldl_cons]
      rw [ih]
      rfl

/-- The events loop only modifies the `metrics` field of the period. -/
theorem eventsLoop_snd_shape (earliest latest : Int) (names : List String) :
    ∀ (acc : Metrics × Period),
      (names.foldl (aggStep earliest latest) acc).2 =
        { acc.2 with metrics := (names.foldl (aggStep earliest latest) acc).2.metrics } := by
  induction names with
  | nil => intro acc; rfl
  | cons n rest ih =>
      intro acc
      rw [List.foldl_cons]
      rw [ih]
      have h2 : (aggStep earliest latest acc n).2 =
          { acc.2 with metrics := (aggStep earliest latest acc n).2.metrics } :=
        aggUpdatePeriod_shape acc.2 n _
      rw [h2]

theorem eventsLoop_metrics_notmem (earliest latest : Int) (names : List String) :
    ∀ (acc : Metrics × Period) (name : String), name ∉ names →
      alGet (names.foldl (aggStep earliest latest) acc).2.metrics name =
        alGet acc.2.metrics name := by
  induction names with
  | nil => intro acc name _; rfl
  | cons n rest ih =>
      intro acc name hmem
      have hn : n ≠ name := by
        intro h
        exact hmem (h ▸ List.mem_cons_self _ _)
      have hrest : name ∉ rest := fun h => hmem (List.mem_cons_of_mem _ h)
      rw [List.foldl_cons]
      rw [ih _ name hrest]
      exact aggUpdatePeriod_metrics_ne acc.2 n _ name hn

/-- After the events loop, `period.metrics[name]` holds exactly the
summary that `aggregateEventMetric` computes from the state the loop
started from (each name is visited once; prior iterations touch only
other names' sequences). -/
theorem eventsLoop_metrics_lookup (earliest latest : Int) (names : List String) :
    ∀ (acc : Metrics × Period), names.Nodup → ∀ name ∈ names,
      alGet (names.foldl (aggStep earliest latest) acc).2.metrics name =
        (aggregateEventMetric (acc.1.getEventType name)
          (acc.1.getEventData name earliest latest) acc.1.aggregationIntervalMs).elim
          (alGet acc.2.metrics name) some := by
  induction names with
  | nil => intro acc _ name h; cases h
  | cons n rest ih =>
      intro acc hnd name hmem
      rw [List.foldl_cons]
      rcases List.mem_cons.mp hmem with heq | hmem2
      · subst heq
        have hrest : name ∉ rest := (List.nodup_cons.mp hnd).1
        rw [eventsLoop_metrics_notmem earliest latest rest _ name hrest]
        exact aggUpdatePeriod_metrics_self acc.2 name _
      · have hnd2 := (List.nodup_cons.mp hnd).2
        have hne : n ≠ name := by
          intro h
          exact (List.nodup_cons.mp hnd).1 (h ▸ hmem2)
        rw [ih _ hnd2 name hmem2]
        rw [show (aggStep earliest latest acc n).1 =
          acc.1.deleteEventData n earliest latest from rfl]
        rw [getEventData_deleteEventData_ne acc.1 n name earliest latest earliest latest hne]
        rw [show (acc.1.deleteEventData n earliest latest).getEventType name =
          acc.1.getEventType name from rfl]
        rw [show (acc.1.deleteEventData n earliest latest).aggregationIntervalMs =
          acc.1.aggregationIntervalMs from rfl]
        rw [show alGet (aggStep earliest latest acc n).2.metrics name =
          alGet (aggUpdatePeriod acc.2 n
            (aggregateEventMetric (acc.1.getEventType n)
              (acc.1.getEventData n earliest latest) acc.1.aggregationIntervalMs)).metrics name
          from rfl]
        rw [aggUpdatePeriod_metrics_ne acc.2 n _ name hne]

theorem eventsLoop_events_notmem (earliest latest : Int) (names : List String) :
    ∀ (acc : Metrics × Period) (name : String), name ∉ names →
      alGet (names.foldl (aggStep earliest latest) acc).1.events name =
        alGet acc.1.events name := by
  induction names with
  | nil => intro acc name _; rfl
  | cons n rest ih =>
      intro acc name hmem
      have hn : n ≠ name := by
        intro h
        exact hmem (h ▸ List.mem_cons_self _ _)
      have hrest : name ∉ rest := fun h => hmem (List.mem_cons_of_mem _ h)
      rw [List.foldl_cons]
      rw [ih _ name hrest]
      exact alGet_alSet_ne _ _ _ _ hn

/-- After the events loop, the sequence stored for a visited name is its
original sequence restricted to events with `ts > latest`. -/
theorem eventsLoop_events_lookup (earliest latest : Int) (names : List String) :
    ∀ (acc : Metrics × Period), names.Nodup → ∀ name ∈ names,
      alGet (names.foldl (aggStep earliest latest) acc).1.events name =
        some (((alGet acc.1.events name).getD []).filter
          fun e => decide (e.ts > latest)) := by
  induction names with
  | nil => intro acc _ name h; cases h
  | cons n rest ih =>
      intro acc hnd name hmem
      rw [List.foldl_cons]
      rcases List.mem_cons.mp hmem with heq | hmem2
      · subst heq
        have hrest : name ∉ rest := (List.nodup_cons.mp hnd).1
        rw [eventsLoop_events_notmem earliest latest rest _ name hrest]
        exact alGet_alSet_self _ _ _
      · have hnd2 := (List.nodup_cons.mp hnd).2
        have hne : n ≠ name := by
          intro h
          exact (List.nodup_cons.mp hnd).1 (h ▸ hmem2)
        rw [ih _ hnd2 name hmem2]
        rw [show (aggStep earliest latest acc n).1 =
          acc.1.deleteEventData n earliest latest from rfl]
        rw [show (acc.1.deleteEventData n earliest latest).events =
          alSet acc.1.events n (((alGet acc.1.events n).getD []).filter
            fun e => decide (e.ts > latest)) from rfl]
        rw [alGet_alSet_ne _ _ _ _ hne]

/-- The keep-filter of `deleteTimerData` holds of no stored timer entry:
a stored entry is a JS array, whose `sat`/`eat` accesses are `undefined`,
which is falsy. -/
theorem deleteTimerData_filter_nil (lte gte : Int) (seq : List TimerEntry) :
    (seq.filter fun e =>
      (jsTruthy e.eat && jsLeB e.eat lte && jsGeB e.eat gte) ||
      (jsTruthy e.sat && jsLeB e.sat lte && jsGeB e.sat gte)) = [] := by
  induction seq with
  | nil => rfl
  | cons e t ih => simp [List.filter, TimerEntry.eat, TimerEntry.sat, jsTruthy, ih]

/-- `deleteTimerData` always empties the metric's timer sequence: the kept
list is empty, and `sats = eats = 0` makes the copying branch a no-op. -/
theorem deleteTimerData_eq (s : Metrics) (name : String) (gte lte : Int) :
    s.deleteTimerData name gte lte = { s with timers := alSet s.timers name [] } := by
  unfold Metrics.deleteTimerData
  have h1 : countSats ((alGet s.timers name).getD []) gte lte = 0 := by
    unfold countSats
    rw [show ((alGet s.timers name).getD []).filter
      (fun e => jsTruthy e.sat && jsLeB e.sat lte && jsGeB e.sat gte) =
        (((alGet s.timers name).getD []).filter
          (fun e => jsTruthy e.sat && jsLeB e.sat lte && jsGeB e.sat gte)) from rfl]
    have : ∀ (seq : List TimerEntry),
        (seq.filter fun e => jsTruthy e.sat && jsLeB e.sat lte && jsGeB e.sat gte) = [] := by
      intro seq
      induction seq with
      | nil => rfl
      | cons e t ih => simp [List.filter, TimerEntry.sat, jsTruthy, ih]
    rw [this]
    rfl
  have h2 : countEats ((alGet s.timers name).getD []) gte lte = 0 := by
    unfold countEats
    have : ∀ (seq : List TimerEntry),
        (seq.filter fun e => jsTruthy e.eat && jsLeB e.eat lte && jsGeB e.eat gte) = [] := by
      intro seq
      induction seq with
      | nil => rfl
      | cons e t ih => simp [List.filter, TimerEntry.eat, jsTruthy, ih]
    rw [this]
    rfl
  simp only [deleteTimerData_filter_nil, h1, h2, gt_iff_lt, lt_self_iff_false, if_false,
    List.append_nil, List.nil_append]

/-- The timers loop only modifies the `timers` field of the state. -/
theorem timersLoop_fst_shape (earliest latest : Int) (names : List String) :
    ∀ (acc : Metrics × Period),
      (names.foldl (aggTimerStep earliest latest) acc).1 =
        { acc.1 with timers := (names.foldl (aggTimerStep earliest latest) acc).1.timers } := by
  induction names with
  | nil => intro acc; rfl
  | cons n rest ih =>
      intro acc
      rw [List.foldl_cons]
      rw [ih]
      rw [show (aggTimerStep earliest latest acc n).1 =
        acc.1.deleteTimerData n earliest latest from rfl]
      rw [deleteTimerData_eq]

/-- The timers loop only modifies the `topProps` field of the period. -/
theorem timersLoop_snd_shape (earliest latest : Int) (names : List String) :
    ∀ (acc : Metrics × Period),
      (names.foldl (aggTimerStep earliest latest) acc).2 =
        { acc.2 with topProps := (names.foldl (aggTimerStep earliest latest) acc).2.topProps } := by
  induction names with
  | nil => intro acc; rfl
  | cons n rest ih =>
      intro acc
      rw [List.foldl_cons]
      rw [ih]
      rfl

theorem timersLoop_timers_notmem (earliest latest : Int) (names : List String) :
    ∀ (acc : Metrics × Period) (name : String), name ∉ names →
      alGet (names.foldl (aggTimerStep earliest latest) acc).1.timers name =
        alGet acc.1.timers name := by
  induction names with
  | nil => intro acc name _; rfl
  | cons n rest ih =>
      intro acc name hmem
      have hn : n ≠ name := by
        intro h
        exact hmem (h ▸ List.mem_cons_self _ _)
      have hrest : name ∉ rest := fun h => hmem (List.mem_cons_of_mem _ h)
      rw [List.foldl_cons]
      rw [ih _ name hrest]
      rw [show (aggTimerStep earliest latest acc n).1 =
        acc.1.deleteTimerData n earliest latest from rfl]
      rw [deleteTimerData_eq]
      exact alGet_alSet_ne _ _ _ _ hn

/-- Every timer name visited by the timers loop ends with an empty
sequence. -/
theorem timersLoop_timers_mem (earliest latest : Int) (names : List String) :
    ∀ (acc : Metrics × Period) (name : String), name ∈ names →
      alGet (names.foldl (aggTimerStep earliest latest) acc).1.timers name =
        some [] := by
  induction names with
  | nil => intro acc name h; cases h
  | cons n rest ih =>
      intro acc name hmem
      rw [List.foldl_cons]
      by_cases hrest : name ∈ rest
      · exact ih _ name hrest
      · rcases List.mem_cons.mp hmem with heq | hmem2
        · subst heq
          rw [timersLoop_timers_notmem earliest latest rest _ name hrest]
          rw [show (aggTimerStep earliest latest acc name).1 =
            acc.1.deleteTimerData name earliest latest from rfl]
          rw [deleteTimerData_eq]
          exact alGet_alSet_self _ _ _
        · exact absurd hmem2 hrest

/-! ## Characterisation of the window-closing pass -/

theorem closeWindowAcc_fst (s : Metrics) (earliest : Int) :
    (closeWindowAcc s earliest).1 =
      { s with
          nextPeriodBeginning := some (earliest + s.aggregationIntervalMs + 1)
          events := (closeWindowAcc s earliest).1.events
          timers := (closeWindowAcc s earliest).1.timers } := by
  simp only [closeWindowAcc]
  rw [timersLoop_fst_shape, eventsLoop_fst_shape]

theorem closeWindowAcc_snd (s : Metrics) (earliest : Int) :
    (closeWindowAcc s earliest).2 =
      { id := s.periods.length
        startsAt := earliest
        endsAt := earliest + s.aggregationIntervalMs
        metrics := (closeWindowAcc s earliest).2.metrics
        topProps := (closeWindowAcc s earliest).2.topProps } := by
  simp only [closeWindowAcc]
  rw [timersLoop_snd_shape, eventsLoop_snd_shape]

theorem closeWindow_eq (s : Metrics) (earliest : Int) :
    s.closeWindow earliest =
      { s with
          nextPeriodBeginning := some (earliest + s.aggregationIntervalMs + 1)
          events := (closeWindowAcc s earliest).1.events
          timers := (closeWindowAcc s earliest).1.timers
          periods := s.periods ++ [(closeWindowAcc s earliest).2] } := by
  unfold Metrics.closeWindow
  rw [closeWindowAcc_fst]

/-- The period appended by `closeWindow` is the last element of the
resulting period store. -/
theorem closeWindow_getLast (s : Metrics) (earliest : Int) :
    (s.closeWindow earliest).periods.getLast? = some (closeWindowAcc s earliest).2 := by
  rw [closeWindow_eq]
  exact List.getLast?_concat _

/-- `defaultAggregator` is a strict no-op when there is no pending window
anchor (`earliest === Infinity`, metrics.js lines 271-274). -/
theorem defaultAggregator_noAnchor (s : Metrics) (now : Int)
    (h : jsOrNum s.nextPeriodBeginning s.getEarliestEventTimestamp = none) :
    s.defaultAggregator now = s := by
  unfold Metrics.defaultAggregator
  rw [h]

/-- `defaultAggregator` is a strict no-op when the window's lag boundary
has not yet been reached (`withLag > Date.now()`, metrics.js lines
289-292). -/
theorem defaultAggregator_skip (s : Metrics) (now earliest : Int)
    (h : jsOrNum s.nextPeriodBeginning s.getEarliestEventTimestamp = some earliest)
    (hlt : now < earliest + s.aggregationIntervalMs + s.aggregationLagMs) :
    s.defaultAggregator now = s := by
  unfold Metrics.defaultAggregator
  rw [h]
  simp only [gt_iff_lt]
  rw [if_pos (by omega)]

/-- When the lag boundary has passed, `defaultAggregator` runs the
window-closing pass anchored at the resolved `earliest`. -/
theorem defaultAggregator_closes (s : Metrics) (now earliest : Int)
    (h : jsOrNum s.nextPeriodBeginning s.getEarliestEventTimestamp = some earliest)
    (hge : earliest + s.aggregationIntervalMs + s.aggregationLagMs ≤ now) :
    s.defaultAggregator now = s.closeWindow earliest := by
  unfold Metrics.defaultAggregator
  rw [h]
  simp only [gt_iff_lt]
  rw [if_neg (by omega)]

/-- The produced period's `metrics[name]` is exactly the summary the
`if/else if` chain computes from the pre-close state's window events. -/
theorem closeWindow_metrics_lookup (s : Metrics) (earliest : Int) (name : String)
    (hnd : (alKeys s.events).Nodup) (hmem : name ∈ s.listEvents) :
    alGet (closeWindowAcc s earliest).2.metrics name =
      aggregateEventMetric (s.getEventType name)
        (s.getEventData name earliest (earliest + s.aggregationIntervalMs))
        s.aggregationIntervalMs := by
  simp only [closeWindowAcc]
  rw [timersLoop_snd_shape]
  dsimp only
  simp only [Metrics.listEvents]
  rw [eventsLoop_metrics_lookup (earliest) (earliest + s.aggregationIntervalMs) _ _ hnd name hmem]
  dsimp only [Metrics.getEventType, Metrics.getEventData, alGet]
  cases aggregateEventMetric ((alGet s.eventTypes name).join)
      (((alGet s.events name).getD []).filter fun e =>
        decide (e.ts ≥ earliest) && decide (e.ts ≤ earliest + s.aggregationIntervalMs))
      s.aggregationIntervalMs with
  | some summary => rfl
  | none => rfl

/-! ## Claim theorems -/

/-- **C2** — Lag safety: on every aggregator tick where
`now() < windowEnd + aggregationLagMs` (with
`windowEnd = windowStart + aggregationIntervalMs`, the window anchor
resolved as the cursor or the earliest pending timestamp), the tick is a
strict no-op: the returned state is unchanged, so no period is appended,
no event data is pruned, and the window cursor is untouched. -/
theorem c2_lag_safety (s : Metrics) (now earliest : Int)
    (hres : jsOrNum s.nextPeriodBeginning s.getEarliestEventTimestamp = some earliest)
    (hnow : now < (earliest + s.aggregationIntervalMs) + s.aggregationLagMs) :
    s.defaultAggregator now = s :=
  defaultAggregator_skip s now earliest hres (by omega)

def sC2 : Metrics := run (Metrics.init (some 1) (some 1)) [Op.record "a" 1 0]

/-- Witness for C2: one event at t = 0, interval and lag of 1 s each; a
tick at t = 1999 (before the lag boundary 2000) leaves the state
unchanged. -/
theorem c2_lag_safety_witness : sC2.defaultAggregator 1999 = sC2 :=
  c2_lag_safety sC2 1999 0 (by with_unfolding_all decide) (by with_unfolding_all decide)

/-- **C3** — Counter aggregation: for every metric declared with type
`counter`, the period produced by a closing tick reports, under that
metric's name, a counter value equal to the sum of the values of its
events whose timestamps lie in the window; in particular the entry is
present with value 0 (not absent) when there are no such events. -/
theorem c3_counter_sum (s : Metrics) (now earliest : Int) (name : String)
    (hnd : (alKeys s.events).Nodup)
    (hres : jsOrNum s.nextPeriodBeginning s.getEarliestEventTimestamp = some earliest)
    (hlag : earliest + s.aggregationIntervalMs + s.aggregationLagMs ≤ now)
    (htype : s.getEventType name = some "counter")
    (hmem : name ∈ s.listEvents) :
    ∃ p, (s.defaultAggregator now).periods.getLast? = some p ∧
      alGet p.metrics name =
        some (.counter
          (((s.getEventData name earliest (earliest + s.aggregationIntervalMs)).map
            MEvent.v).sum)) ∧
      (s.getEventData name earliest (earliest + s.aggregationIntervalMs) = [] →
        alGet p.metrics name = some (.counter 0)) := by
  refine ⟨(closeWindowAcc s earliest).2, ?_, ?_, ?_⟩
  · rw [defaultAggregator_closes s now earliest hres hlag]
    exact closeWindow_getLast s earliest
  · rw [closeWindow_metrics_lookup s earliest name hnd hmem]
    simp [aggregateEventMetric, htype]
  · intro hempty
    rw [closeWindow_metrics_lookup s earliest name hnd hmem]
    simp [aggregateEventMetric, htype, hempty]

def sC3 : Metrics := run (Metrics.init (some 1) (some 1))
  [Op.describe "a" (some "counter"), Op.describe "b" (some "counter"),
   Op.record "a" 1 0, Op.record "a" 2 10]

/-- Witness for C3: counters `"a"` (values 1 and 2 recorded in the window)
and `"b"` (nothing recorded); a closing tick at t = 2000 reports the
summed value for `"a"` and a present zero entry for `"b"`. -/
theorem c3_counter_sum_witness :
    (∃ p, (sC3.defaultAggregator 2000).periods.getLast? = some p ∧
      alGet p.metrics "a" =
        some (.counter (((sC3.getEventData "a" 0 (0 + sC3.aggregationIntervalMs)).map
          MEvent.v).sum)) ∧
      (sC3.getEventData "a" 0 (0 + sC3.aggregationIntervalMs) = [] →
        alGet p.metrics "a" = some (.counter 0))) ∧
    (∃ p, (sC3.defaultAggregator 2000).periods.getLast? = some p ∧
      alGet p.metrics "b" =
        some (.counter (((sC3.getEventData "b" 0 (0 + sC3.aggregationIntervalMs)).map
          MEvent.v).sum)) ∧
      (sC3.getEventData "b" 0 (0 + sC3.aggregationIntervalMs) = [] →
        alGet p.metrics "b" = some (.counter 0))) :=
  ⟨c3_counter_sum sC3 2000 0 "a" (by with_unfolding_all decide)
      (by with_unfolding_all decide) (by with_unfolding_all decide)
      (by with_unfolding_all decide) (by with_unfolding_all decide),
   c3_counter_sum sC3 2000 0 "b" (by with_unfolding_all decide)
      (by with_unfolding_all decide) (by with_unfolding_all decide)
      (by with_unfolding_all decide) (by with_unfolding_all decide)⟩

/-- **C4** — Meter aggregation: for every metric declared with type
`meter`, the period produced by a closing tick reports, under that
metric's name, `value = round(N / (aggregationIntervalMs/1000), 2)` where
`N` is the number of its events whose timestamps lie in the window,
together with unit `"second"`. -/
theorem c4_meter_rate (s : Metrics) (now earliest : Int) (name : String)
    (hnd : (alKeys s.events).Nodup)
    (hres : jsOrNum s.nextPeriodBeginning s.getEarliestEventTimestamp = some earliest)
    (hlag : earliest + s.aggregationIntervalMs + s.aggregationLagMs ≤ now)
    (htype : s.getEventType name = some "meter")
    (hmem : name ∈ s.listEvents) :
    ∃ p, (s.defaultAggregator now).periods.getLast? = some p ∧
      alGet p.metrics name =
        some (.meter
          (round
            (((s.getEventData name earliest (earliest + s.aggregationIntervalMs)).length : ℚ) /
              ((s.aggregationIntervalMs : ℚ) / 1000)) 2)
          "second") := by
  refine ⟨(closeWindowAcc s earliest).2, ?_, ?_⟩
  · rw [defaultAggregator_closes s now earliest hres hlag]
    exact closeWindow_getLast s earliest
  · rw [closeWindow_metrics_lookup s earliest name hnd hmem]
    simp [aggregateEventMetric, htype]

def sC4 : Metrics := run (Metrics.init (some 2) (some 1))
  [Op.describe "r" (some "meter"),
   Op.record "r" 1 0, Op.record "r" 1 100, Op.record "r" 1 200]

/-- Witness for C4: three meter ticks in a 2-second window; the closing
tick reports `round(3 / 2, 2) = 1.5` per second. -/
theorem c4_meter_rate_witness :
    (∃ p, (sC4.defaultAggregator 4000).periods.getLast? = some p ∧
      alGet p.metrics "r" =
        some (.meter
          (round (((sC4.getEventData "r" 0 (0 + sC4.aggregationIntervalMs)).length : ℚ) /
            ((sC4.aggregationIntervalMs : ℚ) / 1000)) 2)
          "second")) ∧
    round ((3 : ℚ) / 2) 2 = 3 / 2 :=
  ⟨c4_meter_rate sC4 4000 0 "r" (by with_unfolding_all decide)
      (by with_unfolding_all decide) (by with_unfolding_all decide)
      (by with_unfolding_all decide) (by with_unfolding_all decide),
   by with_unfolding_all decide⟩

/-- A trace with a declared watermark metric `"m"` carrying the spec's
watermark example scaled to integral milliseconds — starts at t = 0, 10,
20 and stops at t = 15, 30, 40 (the spec's 0, 1, 2 / 1.5, 3, 4) — plus a
counter event anchoring the window `[0, 1000]`, closed by a tick at
t = 2000. -/
def sC5 : Metrics := run (Metrics.init (some 1) (some 1))
  [Op.describe "c" (some "counter"), Op.describe "m" (some "watermark"),
   Op.record "c" 1 0,
   Op.markStart "m" "x" 0, Op.markStart "m" "y" 10, Op.markStart "m" "z" 20,
   Op.markEnd "m" "x" 15, Op.markEnd "m" "y" 30, Op.markEnd "m" "z" 40,
   Op.tick 2000]

/-- The same trace without the closing tick (the store state the
aggregator reads). -/
def sC5pre : Metrics := run (Metrics.init (some 1) (some 1))
  [Op.describe "c" (some "counter"), Op.describe "m" (some "watermark"),
   Op.record "c" 1 0,
   Op.markStart "m" "x" 0, Op.markStart "m" "y" 10, Op.markStart "m" "z" 20,
   Op.markEnd "m" "x" 15, Op.markEnd "m" "y" 30, Op.markEnd "m" "z" 40]

/-- **C5** — The claim says the reported watermark value is the maximum
concurrency (2 for the spec's example).  Evaluating the code on that
example: `getTimerData` selects nothing (the stored entries are singleton
arrays without a `ts` field, and its bounds are swapped), so the scan sees
no marks and the reported high-water mark is 0, not 2. -/
theorem c5_watermark_reports_zero :
    sC5pre.getTimerData "m" 0 1000 = [] ∧
    (sC5.periods.map fun p => alGet p.topProps "m") =
      [some (MetricSummary.watermark 0)] ∧
    MetricSummary.watermark 0 ≠ MetricSummary.watermark 2 := by
  with_unfolding_all decide

/-- **C6** — The claim says the watermark result is stored in the
period's `metrics` mapping.  Evaluating the code: the watermark branch
assigns `period[name]` — a property directly on the period object — so
the produced period's `metrics` has no entry for `"m"` while the
top-level property holds the watermark record. -/
theorem c6_watermark_not_in_metrics :
    (sC5.periods.map fun p => alGet p.metrics "m") = [none] ∧
    (sC5.periods.map fun p => alGet p.topProps "m") =
      [some (MetricSummary.watermark 0)] := by
  with_unfolding_all decide

/-- The undeclared-metric trace: value 5 recorded under the never-declared
name `"x"` at t = 0; with default 10 s interval and lag, a tick at
t = 21000 closes the window `[0, 10000]`. -/
def sC8 : Metrics := run (Metrics.init none none) [Op.record "x" 5 0, Op.tick 21000]

/-- **C8** counterexample — the claim says an undeclared non-watermark
metric is aggregated as a counter.  Evaluating the code: the produced
period's `metrics` has NO entry for `"x"` (its `undefined` type matches no
branch of the `if/else if` chain), yet its events were pruned. -/
theorem c8_counterexample :
    (sC8.periods.map fun p => alGet p.metrics "x") = [none] ∧
    ¬ ((sC8.periods.map fun p => alGet p.metrics "x") =
        [some (MetricSummary.counter 5)]) ∧
    alGet sC8.events "x" = some [] := by
  with_unfolding_all decide

/-- **C8** (amended) — Recording an event under a never-declared metric
name never fails: the store auto-initialises a sequence for it and appends
the event.  However, such an undeclared metric is not aggregated: the
period produced by a closing tick contains no entry for that name in its
`metrics` mapping. -/
theorem c8_undeclared_recording (s : Metrics) (now earliest ts : Int) (name : String)
    (v : ℚ) (tags : List (String × String))
    (hnd : (alKeys s.events).Nodup)
    (hres : jsOrNum s.nextPeriodBeginning s.getEarliestEventTimestamp = some earliest)
    (hlag : earliest + s.aggregationIntervalMs + s.aggregationLagMs ≤ now)
    (hundecl : s.getEventType name = none) :
    (alGet (s.event name v tags ts).events name =
      some (((alGet s.events name).getD []) ++ [{ ts := ts, v := v, tags := tags }])) ∧
    (name ∈ s.listEvents →
      ∃ p, (s.defaultAggregator now).periods.getLast? = some p ∧
        alGet p.metrics name = none) := by
  constructor
  · exact alGet_alSet_self _ _ _
  · intro hmem
    refine ⟨(closeWindowAcc s earliest).2, ?_, ?_⟩
    · rw [defaultAggregator_closes s now earliest hres hlag]
      exact closeWindow_getLast s earliest
    · rw [closeWindow_metrics_lookup s earliest name hnd hmem]
      simp [aggregateEventMetric, hundecl]

def sC8pre : Metrics := run (Metrics.init none none) [Op.record "x" 5 0]

/-- Witness for the amended C8 at the concrete undeclared-metric trace. -/
theorem c8_undeclared_recording_witness :
    (alGet (sC8pre.event "x" 7 [] 50).events "x" =
      some (((alGet sC8pre.events "x").getD []) ++ [{ ts := 50, v := 7, tags := [] }])) ∧
    ("x" ∈ sC8pre.listEvents →
      ∃ p, (sC8pre.defaultAggregator 21000).periods.getLast? = some p ∧
        alGet p.metrics "x" = none) :=
  c8_undeclared_recording sC8pre 21000 0 50 "x" 7 []
    (by with_unfolding_all decide) (by with_unfolding_all decide)
    (by with_unfolding_all decide) (by with_unfolding_all decide)

theorem timersLoop_events_eq (earliest latest : Int) (names : List String)
    (acc : Metrics × Period) :
    (names.foldl (aggTimerStep earliest latest) acc).1.events = acc.1.events := by
  rw [timersLoop_fst_shape]

theorem eventsLoop_timers_eq (earliest latest : Int) (names : List String)
    (acc : Metrics × Period) :
    (names.foldl (aggStep earliest latest) acc).1.timers = acc.1.timers := by
  rw [eventsLoop_fst_shape]

/-- After the closing pass, every event sequence is its pre-close value
restricted to events with `ts > windowEnd` (keys not present stay
absent). -/
theorem closeWindowAcc_events_lookup (s : Metrics) (earliest : Int)
    (hnd : (alKeys s.events).Nodup) (name : String) :
    alGet (closeWindowAcc s earliest).1.events name =
      (alGet s.events name).map fun seq =>
        seq.filter fun e => decide (e.ts > earliest + s.aggregationIntervalMs) := by
  simp only [closeWindowAcc]
  rw [timersLoop_events_eq]
  simp only [Metrics.listEvents]
  by_cases hmem : name ∈ alKeys s.events
  · rw [eventsLoop_events_lookup earliest (earliest + s.aggregationIntervalMs) _ _ hnd name hmem]
    obtain ⟨seq, hseq⟩ := alGet_isSome_of_mem_keys hmem
    dsimp only
    rw [hseq]
    rfl
  · rw [eventsLoop_events_notmem earliest (earliest + s.aggregationIntervalMs) _ _ name hmem]
    dsimp only
    rw [alGet_eq_none_of_not_mem_keys hmem]
    rfl

/-- After the closing pass, every timer sequence is empty. -/
theorem closeWindowAcc_timers_empty (s : Metrics) (earliest : Int) (name : String) :
    (alGet (closeWindowAcc s earliest).1.timers name).getD [] = [] := by
  simp only [closeWindowAcc]
  rw [eventsLoop_timers_eq]
  dsimp only
  by_cases hmem : name ∈ alKeys s.timers
  · rw [timersLoop_timers_mem _ _ _ _ name hmem]
    rfl
  · rw [timersLoop_timers_notmem _ _ _ _ name hmem]
    rw [eventsLoop_timers_eq]
    dsimp only
    rw [alGet_eq_none_of_not_mem_keys hmem]
    rfl

/-- **C7** — Pruning on window close: after the aggregator closes the
window `[earliest, earliest + aggregationIntervalMs]`, every metric's
event sequence retains exactly its events with `ts > endsAt` (so no event
with `ts ≤ endsAt` remains queryable), and no start or stop mark with any
timestamp `≤ endsAt` remains in any watermark metric's sequences. -/
theorem c7_window_close_prunes (s : Metrics) (now earliest : Int)
    (hnd : (alKeys s.events).Nodup)
    (hres : jsOrNum s.nextPeriodBeginning s.getEarliestEventTimestamp = some earliest)
    (hlag : earliest + s.aggregationIntervalMs + s.aggregationLagMs ≤ now) :
    (∀ name, alGet (s.defaultAggregator now).events name =
        (alGet s.events name).map fun seq =>
          seq.filter fun e => decide (e.ts > earliest + s.aggregationIntervalMs)) ∧
    (∀ name entry, entry ∈ (alGet (s.defaultAggregator now).timers name).getD [] →
        ∀ m ∈ entry.elems, ∀ t : Int,
          (m.sat = some t ∨ m.eat = some t) → earliest + s.aggregationIntervalMs < t) := by
  rw [defaultAggregator_closes s now earliest hres hlag, closeWindow_eq]
  constructor
  · intro name
    exact closeWindowAcc_events_lookup s earliest hnd name
  · intro name entry hentry
    dsimp only at hentry
    rw [closeWindowAcc_timers_empty s earliest name] at hentry
    exact absurd hentry (List.not_mem_nil _)

/-- Witness for C7 at the watermark trace: events of `"c"` and the mark
sequences of `"m"` are pruned by the closing tick at t = 2000. -/
theorem c7_window_close_prunes_witness :
    (∀ name, alGet (sC5pre.defaultAggregator 2000).events name =
        (alGet sC5pre.events name).map fun seq =>
          seq.filter fun e => decide (e.ts > 0 + sC5pre.aggregationIntervalMs)) ∧
    (∀ name entry, entry ∈ (alGet (sC5pre.defaultAggregator 2000).timers name).getD [] →
        ∀ m ∈ entry.elems, ∀ t : Int,
          (m.sat = some t ∨ m.eat = some t) → 0 + sC5pre.aggregationIntervalMs < t) :=
  c7_window_close_prunes sC5pre 2000 0 (by with_unfolding_all decide)
    (by with_unfolding_all decide) (by with_unfolding_all decide)

/-- The trace behind the `getLastPeriod` check: one event, one closing
tick, so exactly one period is stored. -/
def sC9 : Metrics := run (Metrics.init (some 1) (some 1)) [Op.record "a" 1 0, Op.tick 2000]

def pC9 : Period :=
  { id := 0, startsAt := 0, endsAt := 1000, metrics := [], topProps := [] }

/-- **C9** — The claim says `getLastPeriod` returns the most recently
appended period whenever one exists.  Evaluating the code: the method
returns `cb(null, {})` — an empty object — even though the period store
holds a period. -/
theorem c9_getLastPeriod_stub :
    sC9.getLastPeriod = LastPeriodResult.emptyObject ∧
    sC9.periods.getLast? = some pC9 ∧
    LastPeriodResult.emptyObject ≠ LastPeriodResult.period pC9 := by
  with_unfolding_all decide

/-- **C10** — Re-declaring a metric name via `describeMetric`
unconditionally resets that name's pending sequence to `[]`: the
timer-mark sequence for type `watermark`, the event sequence for every
other type — whatever samples were pending are discarded. -/
theorem c10_describe_resets (s : Metrics) (name : String) (type : Option String) :
    (type = some "watermark" →
      alGet (s.describeMetric name type).timers name = some []) ∧
    (type ≠ some "watermark" →
      alGet (s.describeMetric name type).events name = some []) := by
  constructor
  · intro h
    simp only [Metrics.describeMetric, Metrics.describeMetricList,
      List.foldl_cons, List.foldl_nil, describeOne]
    rw [if_pos (by simp [h])]
    exact alGet_alSet_self _ _ _
  · intro h
    simp only [Metrics.describeMetric, Metrics.describeMetricList,
      List.foldl_cons, List.foldl_nil, describeOne]
    rw [if_neg (by simp [h])]
    exact alGet_alSet_self _ _ _

/-! ## The windowing invariant (C1) -/

/-- The reachable-state invariant behind the windowing claim: periods are
width-`aggregationIntervalMs` windows chained end-to-end, the cursor (when
set) points one past the last period's end and is positive, and all stored
event timestamps are non-negative (`Date.now()` values). -/
structure AggInv (s : Metrics) : Prop where
  ipos : 0 < s.aggregationIntervalMs
  endsEq : ∀ p ∈ s.periods, p.endsAt = p.startsAt + s.aggregationIntervalMs
  chain : s.periods.Chain' fun p q => q.startsAt = p.endsAt + 1
  cursor : ∀ n, s.nextPeriodBeginning = some n →
    0 < n ∧ ∃ p, s.periods.getLast? = some p ∧ n = p.endsAt + 1
  cursorNone : s.nextPeriodBeginning = none → s.periods = []
  evTs : ∀ kv ∈ s.events, ∀ e ∈ kv.2, 0 ≤ e.ts

/-- Transfer the invariant along an operation that leaves the interval,
the period store and the cursor untouched. -/
theorem AggInv.transfer {s s' : Metrics} (h : AggInv s)
    (hi : s'.aggregationIntervalMs = s.aggregationIntervalMs)
    (hp : s'.periods = s.periods)
    (hc : s'.nextPeriodBeginning = s.nextPeriodBeginning)
    (he : ∀ kv ∈ s'.events, ∀ e ∈ kv.2, 0 ≤ e.ts) : AggInv s' := by
  refine ⟨?_, ?_, ?_, ?_, ?_, he⟩
  · rw [hi]; exact h.ipos
  · rw [hi, hp]; exact h.endsEq
  · rw [hp]; exact h.chain
  · intro n hn
    rw [hc] at hn
    obtain ⟨h0, p, hl, he2⟩ := h.cursor n hn
    exact ⟨h0, p, by rw [hp]; exact hl, he2⟩
  · intro hn
    rw [hc] at hn
    rw [hp]
    exact h.cursorNone hn

/-- A lower bound on all stored event timestamps bounds the earliest
pending timestamp. -/
theorem getEarliest_lower (s : Metrics) (b : Int)
    (h : ∀ kv ∈ s.events, ∀ e ∈ kv.2, b ≤ e.ts) :
    ∀ m, s.getEarliestEventTimestamp = some m → b ≤ m := by
  unfold Metrics.getEarliestEventTimestamp
  have gen : ∀ (l : List (Option Int)) (acc : Option Int),
      (∀ v, acc = some v → b ≤ v) → (∀ x ∈ l, ∀ v, x = some v → b ≤ v) →
      ∀ m, l.foldl minOptInt acc = some m → b ≤ m := by
    intro l
    induction l with
    | nil =>
        intro acc hacc _ m hm
        exact hacc m hm
    | cons x rest ih =>
        intro acc hacc hl m hm
        refine ih (minOptInt acc x) ?_ (fun y hy => hl y (List.mem_cons_of_mem _ hy)) m hm
        intro v hv
        cases acc with
        | none =>
            exact hl x (List.mem_cons_self _ _) v hv
        | some a =>
            cases x with
            | none =>
                have : a = v := by
                  simpa [minOptInt] using hv
                exact this ▸ hacc a rfl
            | some y =>
                have hmin : min a y = v := by
                  simpa [minOptInt] using hv
                exact hmin ▸ le_min (hacc a rfl) (hl (some y) (List.mem_cons_self _ _) y rfl)
  intro m hm
  refine gen _ none (by intro v hv; cases hv) ?_ m hm
  intro x hx v hv
  obtain ⟨kv, hkv, hfx⟩ := List.mem_map.mp hx
  cases hseq : kv.2 with
  | nil =>
      rw [hseq] at hfx
      rw [← hfx] at hv
      cases hv
  | cons e tail =>
      rw [hseq] at hfx
      rw [← hfx] at hv
      cases hv
      exact h kv hkv e (by rw [hseq]; exact List.mem_cons_self _ _)

/-- The events loop preserves any per-event predicate: pruned sequences
are filters of sequences already in the store. -/
theorem eventsLoop_events_pred (P : MEvent → Prop) (earliest latest : Int)
    (names : List String) (acc : Metrics × Period)
    (h : ∀ kv ∈ acc.1.events, ∀ e ∈ kv.2, P e) :
    ∀ kv ∈ (names.foldl (aggStep earliest latest) acc).1.events, ∀ e ∈ kv.2, P e := by
  refine foldl_inv (fun a => ∀ kv ∈ a.1.events, ∀ e ∈ kv.2, P e)
    (aggStep earliest latest) names ?_ acc h
  intro a n _ ha kv hkv e he
  rcases mem_alSet hkv with hmem | heq
  · exact ha kv hmem e he
  · subst heq
    have he2 : e ∈ (alGet a.1.events n).getD [] := List.mem_of_mem_filter he
    cases hh : alGet a.1.events n with
    | none =>
        rw [hh] at he2
        cases he2
    | some seq =>
        rw [hh] at he2
        exact ha (n, seq) (alGet_mem hh) e he2

theorem closeWindowAcc_events_pred (P : MEvent → Prop) (s : Metrics) (earliest : Int)
    (h : ∀ kv ∈ s.events, ∀ e ∈ kv.2, P e) :
    ∀ kv ∈ (closeWindowAcc s earliest).1.events, ∀ e ∈ kv.2, P e := by
  simp only [closeWindowAcc]
  rw [timersLoop_events_eq]
  exact eventsLoop_events_pred P _ _ _ _ h

theorem closeWindowAcc_startsAt (s : Metrics) (earliest : Int) :
    (closeWindowAcc s earliest).2.startsAt = earliest := by
  rw [closeWindowAcc_snd]

theorem closeWindowAcc_endsAt (s : Metrics) (earliest : Int) :
    (closeWindowAcc s earliest).2.endsAt = earliest + s.aggregationIntervalMs := by
  rw [closeWindowAcc_snd]

/-- Closing a window preserves the invariant, given a sound anchor. -/
theorem closeWindow_inv (s : Metrics) (earliest : Int) (h : AggInv s)
    (hres : jsOrNum s.nextPeriodBeginning s.getEarliestEventTimestamp = some earliest) :
    AggInv (s.closeWindow earliest) := by
  have hip : 0 < s.aggregationIntervalMs := h.ipos
  have hnn : 0 ≤ earliest ∧
      (∀ x ∈ s.periods.getLast?, earliest = x.endsAt + 1) := by
    cases hcur : s.nextPeriodBeginning with
    | some n =>
        obtain ⟨h0, p, hl, hEnds⟩ := h.cursor n hcur
        have hne : ¬ n = 0 := by omega
        rw [hcur] at hres
        simp only [jsOrNum, hne, if_false] at hres
        cases hres
        refine ⟨by omega, ?_⟩
        intro x hx
        rw [hl] at hx
        cases hx
        exact hEnds
    | none =>
        have hper := h.cursorNone hcur
        rw [hcur] at hres
        simp only [jsOrNum] at hres
        refine ⟨getEarliest_lower s 0 h.evTs earliest hres, ?_⟩
        intro x hx
        rw [hper] at hx
        cases hx
  rw [closeWindow_eq]
  refine ⟨h.ipos, ?_, ?_, ?_, ?_, ?_⟩
  · intro p hp
    rcases List.mem_append.mp hp with hold | hnew
    · exact h.endsEq p hold
    · rcases List.mem_singleton.mp hnew with rfl
      rw [closeWindowAcc_startsAt, closeWindowAcc_endsAt]
  · refine List.chain'_append.mpr ⟨h.chain, List.chain'_singleton _, ?_⟩
    intro x hx y hy
    simp only [List.head?_cons, Option.mem_def, Option.some.injEq] at hy
    subst hy
    rw [closeWindowAcc_startsAt]
    exact (hnn.2 x hx).symm ▸ rfl
  · intro n hn
    simp only [Option.some.injEq] at hn
    subst hn
    refine ⟨by obtain ⟨h0, _⟩ := hnn; omega,
      (closeWindowAcc s earliest).2, List.getLast?_concat _, ?_⟩
    rw [closeWindowAcc_endsAt]
  · intro hn
    cases hn
  · exact closeWindowAcc_events_pred _ s earliest h.evTs

/-- The aggregator tick preserves the invariant. -/
theorem tick_inv (s : Metrics) (now : Int) (h : AggInv s) :
    AggInv (s.defaultAggregator now) := by
  cases hres : jsOrNum s.nextPeriodBeginning s.getEarliestEventTimestamp with
  | none =>
      rw [defaultAggregator_noAnchor s now hres]
      exact h
  | some earliest =>
      by_cases hlag : earliest + s.aggregationIntervalMs + s.aggregationLagMs ≤ now
      · rw [defaultAggregator_closes s now earliest hres hlag]
        exact closeWindow_inv s earliest h hres
      · rw [defaultAggregator_skip s now earliest hres (by omega)]
        exact h

/-- `describeMetric` steps preserve the invariant. -/
theorem describeOne_inv (st : Metrics) (o : MetricDef) (h : AggInv st) :
    AggInv (describeOne st o) := by
  have hfields : (describeOne st o).aggregationIntervalMs = st.aggregationIntervalMs ∧
      (describeOne st o).periods = st.periods ∧
      (describeOne st o).nextPeriodBeginning = st.nextPeriodBeginning ∧
      ((describeOne st o).events = st.events ∨
       (describeOne st o).events = alSet st.events o.name []) := by
    by_cases ht : o.type = some "watermark" <;> simp [describeOne, ht]
  obtain ⟨h1, h2, h3, h4⟩ := hfields
  refine h.transfer h1 h2 h3 ?_
  rcases h4 with h4 | h4
  · rw [h4]
    exact h.evTs
  · rw [h4]
    intro kv hkv e he
    rcases mem_alSet hkv with hmem | heq
    · exact h.evTs kv hmem e he
    · subst heq
      cases he

theorem describeMetricList_inv (defs : List MetricDef) :
    ∀ (s : Metrics), AggInv s → AggInv (s.describeMetricList defs) := by
  intro s h
  exact foldl_inv AggInv describeOne defs (fun st o _ => describeOne_inv st o) s h

/-- Recording an event at a non-negative `Date.now()` preserves the
invariant. -/
theorem event_inv (s : Metrics) (name : String) (v : ℚ)
    (tags : List (String × String)) (now : Int) (hnow : 0 ≤ now) (h : AggInv s) :
    AggInv (s.event name v tags now) := by
  refine h.transfer rfl rfl rfl ?_
  intro kv hkv e he
  rcases mem_alSet hkv with hmem | heq
  · exact h.evTs kv hmem e he
  · subst heq
    rcases List.mem_append.mp he with hseq | hnew
    · cases hh : alGet s.events name with
      | none =>
          rw [hh] at hseq
          cases hseq
      | some seq =>
          rw [hh] at hseq
          exact h.evTs (name, seq) (alGet_mem hh) e hseq
    · rcases List.mem_singleton.mp hnew with rfl
      exact hnow

theorem markStart_inv (s : Metrics) (name id : String) (now : Int) (h : AggInv s) :
    AggInv (s.markStart name id now) :=
  h.transfer rfl rfl rfl h.evTs

theorem markEnd_inv (s : Metrics) (name id : String) (now : Int) (h : AggInv s) :
    AggInv (s.markEnd name id now) :=
  h.transfer rfl rfl rfl h.evTs

theorem applyOp_inv (s : Metrics) (op : Op) (hop : op.tsOk) (h : AggInv s) :
    AggInv (applyOp s op) := by
  cases op with
  | describe n t => exact describeMetricList_inv _ s h
  | describeList ds => exact describeMetricList_inv ds s h
  | record n v ts => exact event_inv s n v [] ts hop h
  | markStart n i ts => exact markStart_inv s n i ts h
  | markEnd n i ts => exact markEnd_inv s n i ts h
  | tick now => exact tick_inv s now h

theorem run_inv (ops : List Op) :
    ∀ s, (∀ op ∈ ops, op.tsOk) → AggInv s → AggInv (run s ops) := by
  intro s hops h
  exact foldl_inv AggInv applyOp ops (fun st op hmem => applyOp_inv st op (hops op hmem)) s h

theorem init_inv (io lo : Option Int)
    (hpos : 0 < (Metrics.init io lo).aggregationIntervalMs) :
    AggInv (Metrics.init io lo) := by
  refine ⟨hpos, ?_, ?_, ?_, ?_, ?_⟩
  · intro p hp
    cases hp
  · exact List.chain'_nil
  · intro n hn
    cases hn
  · intro _
    rfl
  · intro kv hkv
    cases hkv

/-- **C1** — Windowing: along any trace of operations from a fresh
`Metrics` instance (with a positive configured interval and `Date.now()`
timestamps), every produced period satisfies
`endsAt = startsAt + aggregationIntervalMs`, and every two consecutively
produced periods satisfy `p[i+1].startsAt = p[i].endsAt + 1`. -/
theorem c1_windows_contiguous (io lo : Option Int) (ops : List Op)
    (hpos : 0 < (Metrics.init io lo).aggregationIntervalMs)
    (hts : ∀ op ∈ ops, op.tsOk) :
    (∀ p ∈ (run (Metrics.init io lo) ops).periods,
       p.endsAt = p.startsAt + (run (Metrics.init io lo) ops).aggregationIntervalMs) ∧
    (run (Metrics.init io lo) ops).periods.Chain'
      (fun p q => q.startsAt = p.endsAt + 1) := by
  have h := run_inv ops _ hts (init_inv io lo hpos)
  exact ⟨h.endsEq, h.chain⟩

def opsC1 : List Op :=
  [Op.describe "a" (some "counter"), Op.record "a" 2 0, Op.tick 2000,
   Op.record "a" 3 1500, Op.tick 3500]

/-- Witness for C1: a trace producing two periods — `[0, 1000]` and
`[1001, 2001]` — chained end-to-end. -/
theorem c1_windows_contiguous_witness :
    (run (Metrics.init (some 1) (some 1)) opsC1).periods.length = 2 ∧
    ((∀ p ∈ (run (Metrics.init (some 1) (some 1)) opsC1).periods,
        p.endsAt = p.startsAt +
          (run (Metrics.init (some 1) (some 1)) opsC1).aggregationIntervalMs) ∧
     (run (Metrics.init (some 1) (some 1)) opsC1).periods.Chain'
       (fun p q => q.startsAt = p.endsAt + 1)) :=
  ⟨by with_unfolding_all decide,
   c1_windows_contiguous (some 1) (some 1) opsC1
     (by with_unfolding_all decide) (by with_unfolding_all decide)⟩

def sC10 : Metrics := run (Metrics.init (some 1) (some 1))
  [Op.describe "a" (some "counter"), Op.record "a" 5 0,
   Op.describe "w" (some "watermark"), Op.markStart "w" "i" 0]

/-- Witness for C10: with a pending event under `"a"` and a pending start
mark under `"w"`, re-declaring either name empties its sequence. -/
theorem c10_describe_resets_witness :
    (alGet (sC10.describeMetric "w" (some "watermark")).timers "w" = some []) ∧
    (alGet (sC10.describeMetric "a" (some "counter")).events "a" = some []) :=
  ⟨(c10_describe_resets sC10 "w" (some "watermark")).1 (by with_unfolding_all decide),
   (c10_describe_resets sC10 "a" (some "counter")).2 (by with_unfolding_all decide)⟩

end Minigun
